import Mathlib

/-!
Verification of the PolyFunc core: the language-profile scorer
(`src/languages/profile.js`) and the configuration store
(`src/core/config.js`).

Modelling conventions:
* JavaScript numbers are modelled as exact rationals (`ℚ`); every arithmetic
  operation the source performs (`+`, `*`, `/`, comparisons) is mirrored
  exactly.
* JavaScript truthiness is modelled where the source relies on it:
  `requirements.useCase` is truthy only for a nonempty string,
  `requirements.useCaseWeight || 1` falls back to `1` when the weight is `0`,
  and `!current[k]` in `Config.set` treats `undefined`, `null`, `false`, `0`
  and `""` as falsy.
* A JavaScript `TypeError` (property access on `null`/`undefined`) is modelled
  as `Except.error ()`; absent properties (`undefined`) as `Option.none`.
-/

namespace PolyFunc

/-- The five characteristic dimensions of a language profile, each a numeric
rating (1–10 convention).  The constructor of `LanguageProfile` in the source
defaults every dimension to 5 and the builtin profiles override all five. -/
structure Characteristics where
  performance : ℚ
  memory : ℚ
  startupTime : ℚ
  ecosystem : ℚ
  concurrency : ℚ
deriving Repr, DecidableEq

/-- One characteristic term of a requirement query: `{ weight: … }`. -/
structure DimReq where
  weight : ℚ
deriving Repr, DecidableEq

/-- A requirement query.  Each characteristic dimension is optional
(`none` models an absent key; a present key holds a `{weight}` record, which
is always truthy in JavaScript).  `useCase`/`useCaseWeight` are likewise
optional keys. -/
structure Requirements where
  performance : Option DimReq := none
  memory : Option DimReq := none
  startupTime : Option DimReq := none
  ecosystem : Option DimReq := none
  concurrency : Option DimReq := none
  useCase : Option String := none
  useCaseWeight : Option ℚ := none
deriving Repr, DecidableEq

/-- A language profile: name, characteristics, ordered use cases
(name, score), and a library map (name ↦ (purpose, maturity)). -/
structure LanguageProfile where
  name : String
  characteristics : Characteristics
  useCases : List (String × ℚ)
  libraries : List (String × String × ℚ)
deriving Repr, DecidableEq

/-- `new LanguageProfile(name, characteristics)`: empty use cases and
libraries.  (All builtin call sites supply all five characteristic values.) -/
def LanguageProfile.make (name : String) (c : Characteristics) : LanguageProfile :=
  { name := name, characteristics := c, useCases := [], libraries := [] }

/-- `addUseCase(useCase, score)`: appends to the ordered sequence. -/
def LanguageProfile.addUseCase (p : LanguageProfile) (useCase : String) (score : ℚ) :
    LanguageProfile :=
  { p with useCases := p.useCases ++ [(useCase, score)] }

/-- `addLibrary(name, purpose, maturity)`: object-key assignment. -/
def LanguageProfile.addLibrary (p : LanguageProfile) (name purpose : String) (maturity : ℚ) :
    LanguageProfile :=
  { p with libraries :=
      if p.libraries.any (fun e => e.1 = name) then
        p.libraries.map (fun e => if e.1 = name then (name, purpose, maturity) else e)
      else p.libraries ++ [(name, purpose, maturity)] }

/-- The effective use-case weight: `requirements.useCaseWeight || 1`.
JavaScript `||` falls back to `1` on every falsy value, so a present weight
of `0` is replaced by `1`. -/
def ucWeight (req : Requirements) : ℚ :=
  match req.useCaseWeight with
  | some w => if w = 0 then 1 else w
  | none => 1

/-- One `if (requirements.<dimension>) { score += …; totalWeight += …; }` block of
`matches`, acting on the running `(score, totalWeight)` pair.  An absent key
skips the block (an absent object key is falsy; a present `{weight}` record is
always truthy). -/
def dimStep (value : ℚ) (o : Option DimReq) (a : ℚ × ℚ) : ℚ × ℚ :=
  match o with
  | some r => (a.1 + value * r.weight, a.2 + r.weight)
  | none => a

/-- The `if (requirements.useCase)` block of `matches`: truthy only for a
nonempty string; look up the first use case with a matching name; on a hit add
`useCase.score * (requirements.useCaseWeight || 1)` and the same weight. -/
def ucStep (p : LanguageProfile) (req : Requirements) (a : ℚ × ℚ) : ℚ × ℚ :=
  match req.useCase with
  | some u =>
    if u = "" then a
    else
      match (p.useCases.find? (fun uc => uc.1 = u) : Option (String × ℚ)) with
      | some uc => (a.1 + uc.2 * ucWeight req, a.2 + ucWeight req)
      | none => a
  | none => a

/-- `LanguageProfile.matches(requirements)`: sequential accumulation of
(score, totalWeight) over the five characteristic dimensions present in the
query (in source order), then the use-case block, finally
`totalWeight > 0 ? score / totalWeight : 0`. -/
def LanguageProfile.matches (p : LanguageProfile) (req : Requirements) : ℚ :=
  let a1 := dimStep p.characteristics.performance req.performance (0, 0)
  let a2 := dimStep p.characteristics.memory req.memory a1
  let a3 := dimStep p.characteristics.startupTime req.startupTime a2
  let a4 := dimStep p.characteristics.ecosystem req.ecosystem a3
  let a5 := dimStep p.characteristics.concurrency req.concurrency a4
  let a6 := ucStep p req a5
  if a6.2 > 0 then a6.1 / a6.2 else 0

/-- The builtin javascript profile. -/
def javascriptProfile : LanguageProfile :=
  ((((((LanguageProfile.make "javascript"
    { performance := 6, memory := 5, startupTime := 7, ecosystem := 9, concurrency := 6
    }).addUseCase "web" 9).addUseCase "api" 8).addUseCase "scripting" 9).addUseCase
      "data" 6).addLibrary "express" "web server" 9).addLibrary "node-fetch" "http client" 8

/-- The builtin python profile. -/
def pythonProfile : LanguageProfile :=
  ((((((LanguageProfile.make "python"
    { performance := 5, memory := 6, startupTime := 6, ecosystem := 9, concurrency := 5
    }).addUseCase "data" 9).addUseCase "ml" 10).addUseCase "scripting" 9).addUseCase
      "web" 6).addLibrary "flask" "web server" 8).addLibrary "pandas" "data processing" 9

/-- The builtin go profile. -/
def goProfile : LanguageProfile :=
  ((((((LanguageProfile.make "go"
    { performance := 8, memory := 8, startupTime := 9, ecosystem := 7, concurrency := 10
    }).addUseCase "performance" 9).addUseCase "concurrency" 10).addUseCase "api" 8).addUseCase
      "system" 8).addLibrary "gin" "web framework" 8).addLibrary "gorm" "orm" 7

/-- The builtin rust profile. -/
def rustProfile : LanguageProfile :=
  ((((((LanguageProfile.make "rust"
    { performance := 10, memory := 9, startupTime := 7, ecosystem := 6, concurrency := 9
    }).addUseCase "system" 10).addUseCase "performance" 10).addUseCase "concurrency" 9).addUseCase
      "embedded" 9).addLibrary "actix-web" "web server" 8).addLibrary "serde" "serialization" 9

/-- The exported `profiles` object, in insertion (registration) order, as
iterated by `Object.entries`. -/
def profiles : List (String × LanguageProfile) :=
  [("javascript", javascriptProfile), ("python", pythonProfile),
   ("go", goProfile), ("rust", rustProfile)]

/-- The record returned by `findBestLanguageForRequirements`. -/
structure ScoreResult where
  language : Option String
  score : ℚ
  profile : Option LanguageProfile
deriving Repr, DecidableEq

/-- One iteration of the loop in `findBestLanguageForRequirements`:
update the running `(bestLanguage, bestScore)` only on a strictly greater
score. -/
def findBestStep (req : Requirements) (acc : Option String × ℚ)
    (entry : String × LanguageProfile) : Option String × ℚ :=
  if entry.2.matches req > acc.2 then (some entry.1, entry.2.matches req) else acc

/-- `findBestLanguageForRequirements(requirements)` generalised over the
registry (`this.profiles`, an insertion-ordered key/profile map).  The
running maximum starts at the sentinel `-1`; the returned `profile` field is
`bestLanguage ? this.profiles[bestLanguage] : null`, where a JavaScript
truthiness test makes an empty-string language name yield `null`. -/
def findBestLanguageForRequirements (registry : List (String × LanguageProfile))
    (req : Requirements) : ScoreResult :=
  let r := registry.foldl (findBestStep req) (none, -1)
  { language := r.1
    score := r.2
    profile :=
      match r.1 with
      | some n => if n = "" then none else (registry.find? (fun e => e.1 = n)).map (fun e => e.2)
      | none => none }

/-! ### Declarative weighted-average view of the score (specification side) -/

/-- The (value, weight) term list contributed by one optional characteristic
dimension: a singleton when the dimension is present in the query, empty
otherwise. -/
def optTerm (value : ℚ) (o : Option DimReq) : List (ℚ × ℚ) :=
  match o with
  | some r => [(value, r.weight)]
  | none => []

/-- The (score, weight) term contributed by the use-case axis, following the
amended reading of the spec: it applies when the query names a nonempty
`useCase` that occurs (first match) in the profile's use cases, with weight
`useCaseWeight` when that is given and nonzero, else `1`. -/
def ucTerm (p : LanguageProfile) (req : Requirements) : List (ℚ × ℚ) :=
  match req.useCase with
  | some u =>
    if u = "" then []
    else
      match (p.useCases.find? (fun uc => uc.1 = u) : Option (String × ℚ)) with
      | some uc => [(uc.2, ucWeight req)]
      | none => []
  | none => []

/-- All (value, weight) terms present in a query, in source order. -/
def presentTerms (p : LanguageProfile) (req : Requirements) : List (ℚ × ℚ) :=
  optTerm p.characteristics.performance req.performance ++
  optTerm p.characteristics.memory req.memory ++
  optTerm p.characteristics.startupTime req.startupTime ++
  optTerm p.characteristics.ecosystem req.ecosystem ++
  optTerm p.characteristics.concurrency req.concurrency ++
  ucTerm p req

/-- Weighted sum of a term list: `Σ value·weight`. -/
def sumScore (ts : List (ℚ × ℚ)) : ℚ := (ts.map (fun t => t.1 * t.2)).sum

/-- Total weight of a term list: `Σ weight`. -/
def sumWeight (ts : List (ℚ × ℚ)) : ℚ := (ts.map (fun t => t.2)).sum

/-- The weighted average over exactly the terms present in the query,
with result `0` when the total weight is not strictly positive.  This is the
declarative counterpart (amended spec reading) against which the sequential
accumulator `matches` is verified. -/
def specScore (p : LanguageProfile) (req : Requirements) : ℚ :=
  if 0 < sumWeight (presentTerms p req) then
    sumScore (presentTerms p req) / sumWeight (presentTerms p req)
  else 0

/-- Use-case term list written exactly as the original claim states it:
every named `useCase` found in the profile contributes (no truthiness on the
name), weighted by `useCaseWeight` whenever that key is given (no truthiness
on the weight), else `1`. -/
def claimedUcTerm (p : LanguageProfile) (req : Requirements) : List (ℚ × ℚ) :=
  match req.useCase with
  | some u =>
    match (p.useCases.find? (fun uc => uc.1 = u) : Option (String × ℚ)) with
    | some uc =>
      [(uc.2, match req.useCaseWeight with | some w => w | none => 1)]
    | none => []
  | none => []

/-- The score exactly as the original claim states it: the weighted sum over
the present terms divided by the sum of those same weights, with result `0`
when that total weight is `0`. -/
def claimedScore (p : LanguageProfile) (req : Requirements) : ℚ :=
  let ts :=
    optTerm p.characteristics.performance req.performance ++
    optTerm p.characteristics.memory req.memory ++
    optTerm p.characteristics.startupTime req.startupTime ++
    optTerm p.characteristics.ecosystem req.ecosystem ++
    optTerm p.characteristics.concurrency req.concurrency ++
    claimedUcTerm p req
  if sumWeight ts = 0 then 0 else sumScore ts / sumWeight ts

/-! ### Non-negativity (the spec's documented input domain)

The spec declares query weights to be non-negative multipliers and profile
ratings to follow a 1–10 convention; these decidable predicates capture that
domain. -/

/-- A present dimension weight is non-negative. -/
def dimOk (o : Option DimReq) : Bool :=
  match o with
  | some r => 0 ≤ r.weight
  | none => true

/-- All weights appearing in the query are non-negative. -/
def Requirements.nonnegQ (req : Requirements) : Bool :=
  dimOk req.performance && dimOk req.memory && dimOk req.startupTime &&
  dimOk req.ecosystem && dimOk req.concurrency &&
  (match req.useCaseWeight with
   | some w => decide (0 ≤ w)
   | none => true)

/-- All characteristic ratings and use-case scores of the profile are
non-negative. -/
def LanguageProfile.nonnegP (p : LanguageProfile) : Bool :=
  decide (0 ≤ p.characteristics.performance) &&
  decide (0 ≤ p.characteristics.memory) &&
  decide (0 ≤ p.characteristics.startupTime) &&
  decide (0 ≤ p.characteristics.ecosystem) &&
  decide (0 ≤ p.characteristics.concurrency) &&
  p.useCases.all (fun uc => 0 ≤ uc.2)

/-! ### Concrete profiles and queries used by individual claims -/

/-- Concrete profile for the C1 counterexample: one use case `web` at 10. -/
def p0 : LanguageProfile :=
  { name := "p"
    characteristics :=
      { performance := 5, memory := 5, startupTime := 5, ecosystem := 5, concurrency := 5 }
    useCases := [("web", 10)]
    libraries := [] }

/-- Concrete query for the C1 counterexample: `useCase: "web"`,
`useCaseWeight: 0`. -/
def req0 : Requirements := { useCase := some "web", useCaseWeight := some 0 }

/-- Query used to instantiate C2: ecosystem weight 1, on which javascript and
python tie at 9 and the earlier-registered javascript must win. -/
def qEco : Requirements := { ecosystem := some { weight := 1 } }

/-- The query of C9: performance and concurrency weight 1, use case
`system`. -/
def q9 : Requirements :=
  { performance := some { weight := 1 }, concurrency := some { weight := 1 },
    useCase := some "system" }

/-! ## Configuration store (`src/core/config.js`)

Documents are JSON/YAML-shaped trees.  Objects are insertion-ordered
association lists with unique keys (the JavaScript object invariant).
`undefined` is represented as `Option.none` where a value may be absent; a
thrown `TypeError` as `Except.error ()`.  Own data properties are modelled;
prototype-inherited properties (e.g. `toString`) are outside the model. -/

/-- A configuration document value. -/
inductive JValue where
  | null : JValue
  | bool : Bool → JValue
  | num : ℚ → JValue
  | str : String → JValue
  | arr : List JValue → JValue
  | obj : List (String × JValue) → JValue

/-- `kvs[k]` on an object's own entries: first entry with the key. -/
def getEntry (kvs : List (String × JValue)) (k : String) : Option JValue :=
  (kvs.find? (fun e => e.1 = k)).map (fun e => e.2)

/-- JavaScript object key assignment `o[k] = v`: overwrite in place when the
key exists, else append. -/
def setKey (kvs : List (String × JValue)) (k : String) (v : JValue) :
    List (String × JValue) :=
  if kvs.any (fun e => e.1 = k) then
    kvs.map (fun e => if e.1 = k then (k, v) else e)
  else kvs ++ [(k, v)]

/-- The local `isObject` helper of `deepMerge`:
`item && typeof item === 'object' && !Array.isArray(item)` — a plain mapping,
excluding `null` and arrays. -/
def isObject : JValue → Bool
  | .obj _ => true
  | _ => false

/-- JavaScript object spread `{...v}`: an object's own entries; an array's
elements under their index keys; a string's characters under their index
keys (strings have indexed own enumerable properties); `{}` for every other
primitive. -/
def spreadEntries : JValue → List (String × JValue)
  | .obj kvs => kvs
  | .arr xs => xs.enum.map (fun e => (toString e.1, e.2))
  | .str s => s.toList.enum.map (fun e => (toString e.1, JValue.str (String.singleton e.2)))
  | _ => []

mutual

/-- `Config.deepMerge(target, source)`: start from `output = {...target}`;
when both arguments are plain mappings, walk the keys of `source` (in order),
recursively merging a mapping-valued key that also exists in `target` and
otherwise assigning the source value; always return `output` (hence always a
plain object). -/
def deepMerge (target source : JValue) : JValue :=
  match source with
  | .obj skvs =>
    match target with
    | .obj tkvs => .obj (mergeList tkvs tkvs skvs)
    | _ => .obj (spreadEntries target)
  | _ => .obj (spreadEntries target)

/-- The `Object.keys(source).forEach` loop of `deepMerge`: `tkvs` is the
original target's entries (consulted by `key in target` / `target[key]`),
`out` the output object being built. -/
def mergeList (tkvs out : List (String × JValue)) :
    List (String × JValue) → List (String × JValue)
  | [] => out
  | (k, sv) :: rest =>
    let out' :=
      if isObject sv then
        match getEntry tkvs k with
        | none => setKey out k sv
        | some tv => setKey out k (deepMerge tv sv)
      else setKey out k sv
    mergeList tkvs out' rest

end

/-- Decimal value of a digit character. -/
def digitVal? (c : Char) : Option ℕ :=
  if '0' ≤ c ∧ c ≤ '9' then some (c.toNat - Char.toNat '0') else none

/-- Accumulate the decimal value of a digit list; `none` on any non-digit. -/
def parseDigits? : List Char → ℕ → Option ℕ
  | [], acc => some acc
  | c :: cs, acc =>
    match digitVal? c with
    | some d => parseDigits? cs (acc * 10 + d)
    | none => none

/-- Parse a nonempty all-digit string to a natural number — the strings
JavaScript coerces to array indices.  Callers additionally compare
`toString i` with the key so that only the canonical decimal representation
counts as an index (JavaScript treats `"01"` as an ordinary property name).
Agrees with `String.toNat?`; written by structural recursion so that
concrete instances evaluate. -/
def parseIndex? (s : String) : Option ℕ :=
  match s.toList with
  | [] => none
  | l => parseDigits? l 0

/-- Own-property read `v[k]` on a non-null, defined value: object entry,
array element (canonical numeric key) or `length`, string character
(canonical numeric key) or `length`; `undefined` on other primitives.
(Prototype-inherited properties are outside the model; reading on `null`
is handled by the caller.) -/
def readTotal : JValue → String → Option JValue
  | .obj kvs, k => getEntry kvs k
  | .arr xs, k =>
    if k = "length" then some (.num xs.length)
    else
      match parseIndex? k with
      | some i => if toString i = k then xs.get? i else none
      | none => none
  | .str s, k =>
    if k = "length" then some (.num s.length)
    else
      match parseIndex? k with
      | some i =>
        if toString i = k then (s.toList.get? i).map (fun c => .str (String.singleton c))
        else none
      | none => none
  | _, _ => none

/-- Property read with the JavaScript `TypeError` on `null`. -/
def readProp (doc : JValue) (k : String) : Except Unit (Option JValue) :=
  match doc with
  | .null => .error ()
  | _ => .ok (readTotal doc k)

/-- `Config.get(key)` after `key.split('.')`: walk the document key by key,
returning `undefined` (`none`) as soon as `result[k] === undefined`, and
propagating the `TypeError` thrown by a property read on a `null`
intermediate value. -/
def getPath : JValue → List String → Except Unit (Option JValue)
  | doc, [] => .ok (some doc)
  | doc, k :: rest =>
    match readProp doc k with
    | .error _ => .error ()
    | .ok none => .ok none
    | .ok (some v) => getPath v rest

/-- JavaScript truthiness of a defined document value: `null`, `false`, `0`
and `""` are falsy; every object and array is truthy. -/
def truthy : JValue → Bool
  | .null => false
  | .bool b => b
  | .num q => q ≠ 0
  | .str s => s ≠ ""
  | .arr _ => true
  | .obj _ => true

/-- Truthiness of a possibly-undefined value (`undefined` is falsy). -/
def truthyOpt : Option JValue → Bool
  | some v => truthy v
  | none => false

/-- How a step of `Config.set` can fail to produce a representable document:
`typeError` and `rangeError` are the exceptions the JavaScript actually
throws (property access on `null`/`undefined`; an invalid array-length
assignment); `unmodelled` marks a step that succeeds in JavaScript but whose
result — a sparse array, or a non-index own property attached to an array —
cannot be expressed by this tree document type.  No claim's theorem reaches
an `unmodelled` step. -/
inductive SetErr where
  | typeError : SetErr
  | rangeError : SetErr
  | unmodelled : SetErr

/-- The final assignment `current[k] = value` of `Config.set`, on a defined
non-null `current`: sticks on an object; is a silent no-op on a primitive
(sloppy-mode JavaScript).  On an array, a canonical index below the length
replaces that element and an index equal to the length appends (both exactly
as in JavaScript); an index beyond the length (sparse result), a non-index
key (attached own property) and the `ToUint32`-governed `length` assignment
are unrepresentable here and yield `unmodelled`. -/
def assignProp : JValue → String → JValue → Except SetErr JValue
  | .obj kvs, k, v => .ok (.obj (setKey kvs k v))
  | .null, _, _ => .error .typeError
  | .arr xs, k, v =>
    if k = "length" then .error .unmodelled
    else
      match parseIndex? k with
      | some i =>
        if toString i = k then
          if i < xs.length then .ok (.arr (xs.set i v))
          else if i = xs.length then .ok (.arr (xs ++ [v]))
          else .error .unmodelled
        else .error .unmodelled
      | none => .error .unmodelled
  | cur, _, _ => .ok cur

/-- `Config.set(key, value)` after `key.split('.')`, acting on the subtree
`cur` (`none` models an `undefined` current): walking or assigning on
`undefined` or `null` throws; on an object the intermediate key is replaced
by `{}` when its value is falsy (`if (!current[k]) current[k] = {}`), then
the walk descends and the updated child is written back; on a primitive all
assignments are silent no-ops and the walk descends into the property read's
result.  On an array, a canonical index below the length behaves like an
object key (falsy element replaced by `{}`), an index equal to the length
appends a fresh `{}` (`a[a.length] = {}` leaves no hole), a truthy `length`
read descends into the number, and `a.length = {}` on an empty array throws
a `RangeError`; indices beyond the length (sparse arrays) and non-index
array keys (attached own properties) are unrepresentable in this tree type
and are reported as `unmodelled`.  Returns the subtree's value after the
call.  (Intermediate `{}` writes that precede a deeper `TypeError` are not
preserved by the error result; the theorems below only concern non-throwing
executions.) -/
def setWalk : Option JValue → List String → JValue → Except SetErr JValue
  | none, _, _ => .error .typeError
  | some .null, _, _ => .error .typeError
  | some cur, [], _ => .ok cur
  | some cur, [k], v => assignProp cur k v
  | some cur, k :: k' :: rest, v =>
    match cur with
    | .obj kvs =>
      let c1 : JValue :=
        match getEntry kvs k with
        | some c => if truthy c then c else .obj []
        | none => .obj []
      match setWalk (some c1) (k' :: rest) v with
      | .error e => .error e
      | .ok r => .ok (.obj (setKey kvs k r))
    | .arr xs =>
      if k = "length" then
        match xs with
        | [] => .error .rangeError
        | _ :: _ =>
          match setWalk (some (.num xs.length)) (k' :: rest) v with
          | .error e => .error e
          | .ok _ => .ok (.arr xs)
      else
        match parseIndex? k with
        | some i =>
          if toString i = k then
            match xs.get? i with
            | some c =>
              let c1 : JValue := if truthy c then c else .obj []
              match setWalk (some c1) (k' :: rest) v with
              | .error e => .error e
              | .ok r => .ok (.arr (xs.set i r))
            | none =>
              if i = xs.length then
                match setWalk (some (.obj [])) (k' :: rest) v with
                | .error e => .error e
                | .ok r => .ok (.arr (xs ++ [r]))
              else .error .unmodelled
          else .error .unmodelled
        | none => .error .unmodelled
    | cur =>
      match setWalk (readTotal cur k) (k' :: rest) v with
      | .error e => .error e
      | .ok _ => .ok cur

/-- `Config.loadFromFile(configPath)`, with the file system and the external
parsers abstracted as inputs: `read` is the outcome of
`fs.readFileSync` (`error` = thrown read error), `ext` the lowercased
file-name extension computed by `path.extname(configPath).toLowerCase()`, and
`parseJson`/`parseYaml` the outcomes of `JSON.parse`/`yaml.parse` on the file
contents (`error` = thrown parse error).  Every throw is caught by the
surrounding `try`/`catch`, which returns `false` leaving the document
untouched; on success the parsed document is deep-merged into the current
one.  Returns `(success, newDocument)`. -/
def loadFromFile (config : JValue) (read : Except Unit String) (ext : String)
    (parseJson parseYaml : String → Except Unit JValue) : Bool × JValue :=
  match read with
  | .error _ => (false, config)
  | .ok contents =>
    if ext = ".json" then
      match parseJson contents with
      | .error _ => (false, config)
      | .ok loaded => (true, deepMerge config loaded)
    else if ext = ".yml" ∨ ext = ".yaml" then
      match parseYaml contents with
      | .error _ => (false, config)
      | .ok loaded => (true, deepMerge config loaded)
    else (false, config)

/-- The top-level entries of the default in-memory document built by the
`Config` constructor.  `process.env.OPENAI_API_KEY` is environment-dependent
and passed in as `apiKey`. -/
def defaultEntries (apiKey : JValue) : List (String × JValue) :=
    [("llm", .obj
        [("provider", .str "openai"), ("model", .str "gpt-4"), ("apiKey", apiKey)]),
     ("languages", .obj
        [("javascript", .obj
            [("priority", .num 1), ("useCase", .arr [.str "web", .str "api"])]),
         ("python", .obj
            [("priority", .num 2), ("useCase", .arr [.str "data", .str "ml"])]),
         ("go", .obj
            [("priority", .num 3),
             ("useCase", .arr [.str "performance", .str "concurrency"])]),
         ("rust", .obj
            [("priority", .num 4),
             ("useCase", .arr [.str "system", .str "performance"])])]),
     ("paths", .obj
        [("services", .str "./services"), ("templates", .str "./templates")])]

/-- The default in-memory document of the `Config` constructor. -/
def defaultConfig (apiKey : JValue) : JValue := .obj (defaultEntries apiKey)

mutual

/-- No `null` occurs anywhere in the document. -/
def nullFree : JValue → Bool
  | .null => false
  | .bool _ => true
  | .num _ => true
  | .str _ => true
  | .arr xs => nullFreeList xs
  | .obj kvs => nullFreeEntries kvs

/-- `nullFree` on array elements. -/
def nullFreeList : List JValue → Bool
  | [] => true
  | x :: xs => nullFree x && nullFreeList xs

/-- `nullFree` on object entries. -/
def nullFreeEntries : List (String × JValue) → Bool
  | [] => true
  | e :: es => nullFree e.2 && nullFreeEntries es

end

/-- The walk of `Config.get` as the spec describes it: descend key by key,
yielding "no value" (`none`) the moment a key is missing — with no exception
at all. -/
def specWalk : JValue → List String → Option JValue
  | doc, [] => some doc
  | doc, k :: rest =>
    match readTotal doc k with
    | none => none
    | some v => specWalk v rest

/-- The set paths on which `Config.set` stores the value so that `get`
retrieves it: the walk starts at a plain object or a canonically-indexed
array, every traversed intermediate value is either absent, falsy (then
replaced by a fresh `{}`), a plain object, or an array reached at a
canonical index at most its length, and the final container is likewise an
object or such an array.  A truthy primitive intermediate (for example the
number `5` or `true`) is excluded: there the code descends without replacing
and the assignment onto the primitive is silently lost. -/
def okSetPath : JValue → List String → Bool
  | _, [] => false
  | doc, [k] =>
    (match doc with
     | .obj _ => true
     | .arr xs =>
       (match parseIndex? k with
        | some i => decide (toString i = k) && decide (i ≤ xs.length)
        | none => false)
     | _ => false)
  | doc, k :: k' :: rest =>
    match doc with
    | .obj kvs =>
      (match getEntry kvs k with
       | some c =>
         if truthy c then okSetPath c (k' :: rest)
         else okSetPath (.obj []) (k' :: rest)
       | none => okSetPath (.obj []) (k' :: rest))
    | .arr xs =>
      (match parseIndex? k with
       | some i =>
         if toString i = k then
           match xs.get? i with
           | some c =>
             if truthy c then okSetPath c (k' :: rest)
             else okSetPath (.obj []) (k' :: rest)
           | none =>
             if i = xs.length then okSetPath (.obj []) (k' :: rest) else false
         else false
       | none => false)
    | _ => false

/-- The override document of C4: `{llm:{model:"custom"}}`. -/
def loadedC4 : JValue := .obj [("llm", .obj [("model", .str "custom")])]

lemma dimStep_eq (value : ℚ) (o : Option DimReq) (a : ℚ × ℚ) :
    dimStep value o a =
      (a.1 + sumScore (optTerm value o), a.2 + sumWeight (optTerm value o)) := by
  cases o <;> simp [dimStep, optTerm, sumScore, sumWeight]

lemma ucStep_eq (p : LanguageProfile) (req : Requirements) (a : ℚ × ℚ) :
    ucStep p req a =
      (a.1 + sumScore (ucTerm p req), a.2 + sumWeight (ucTerm p req)) := by
  unfold ucStep ucTerm
  cases req.useCase with
  | none => simp [sumScore, sumWeight]
  | some u =>
    by_cases hu : u = ""
    · simp [hu, sumScore, sumWeight]
    · simp only [hu, if_false]
      cases p.useCases.find? (fun uc => uc.1 = u) <;> simp [sumScore, sumWeight]

lemma sumScore_append (a b : List (ℚ × ℚ)) :
    sumScore (a ++ b) = sumScore a + sumScore b := by
  simp [sumScore]

lemma sumWeight_append (a b : List (ℚ × ℚ)) :
    sumWeight (a ++ b) = sumWeight a + sumWeight b := by
  simp [sumWeight]

/-- The sequential accumulator of `matches` computes exactly the declarative
weighted average over the present terms. -/
lemma matches_eq_specScore (p : LanguageProfile) (req : Requirements) :
    p.matches req = specScore p req := by
  unfold LanguageProfile.matches specScore
  simp only [dimStep_eq, ucStep_eq, presentTerms, sumScore_append, sumWeight_append,
    zero_add, add_assoc, gt_iff_lt]

lemma ucWeight_nonneg {req : Requirements}
    (h : (match req.useCaseWeight with
          | some w => decide (0 ≤ w)
          | none => true) = true) :
    0 ≤ ucWeight req := by
  unfold ucWeight
  cases hw : req.useCaseWeight with
  | none => norm_num
  | some w =>
    by_cases h0 : w = 0
    · simp [h0]
    · simp only [h0, if_false]
      rw [hw] at h
      simpa using h

lemma presentTerms_nonneg {p : LanguageProfile} {req : Requirements}
    (hp : p.nonnegP = true) (hq : req.nonnegQ = true) :
    ∀ t ∈ presentTerms p req, 0 ≤ t.1 ∧ 0 ≤ t.2 := by
  intro t ht
  unfold Requirements.nonnegQ at hq
  unfold LanguageProfile.nonnegP at hp
  simp only [Bool.and_eq_true, decide_eq_true_eq, List.all_eq_true] at hp hq
  obtain ⟨⟨⟨⟨⟨hp1, hp2⟩, hp3⟩, hp4⟩, hp5⟩, hpu⟩ := hp
  obtain ⟨⟨⟨⟨⟨hq1, hq2⟩, hq3⟩, hq4⟩, hq5⟩, hq6⟩ := hq
  have hdim : ∀ (v : ℚ) (o : Option DimReq), 0 ≤ v → dimOk o = true →
      ∀ t ∈ optTerm v o, 0 ≤ t.1 ∧ 0 ≤ t.2 := by
    intro v o hv ho t ht
    cases o with
    | none => simp [optTerm] at ht
    | some r =>
      simp only [optTerm, List.mem_singleton] at ht
      subst ht
      simp only [dimOk, decide_eq_true_eq] at ho
      exact ⟨hv, ho⟩
  simp only [presentTerms, List.mem_append] at ht
  rcases ht with ((((h | h) | h) | h) | h) | h
  · exact hdim _ _ hp1 hq1 t h
  · exact hdim _ _ hp2 hq2 t h
  · exact hdim _ _ hp3 hq3 t h
  · exact hdim _ _ hp4 hq4 t h
  · exact hdim _ _ hp5 hq5 t h
  · unfold ucTerm at h
    rcases hu : req.useCase with _ | u
    · simp [hu] at h
    · rw [hu] at h
      by_cases he : u = ""
      · simp [he] at h
      · simp only [he, if_false] at h
        rcases hf : p.useCases.find? (fun uc => uc.1 = u) with _ | uc
        · simp [hf] at h
        · rw [hf] at h
          simp only [List.mem_singleton] at h
          subst h
          have hmem : uc ∈ p.useCases := List.mem_of_find?_eq_some hf
          refine ⟨?_, ucWeight_nonneg hq6⟩
          have := hpu uc hmem
          simpa using this

/-- Within the spec's documented domain (non-negative weights and ratings)
every score is non-negative. -/
lemma matches_nonneg {p : LanguageProfile} {req : Requirements}
    (hp : p.nonnegP = true) (hq : req.nonnegQ = true) :
    0 ≤ p.matches req := by
  rw [matches_eq_specScore]
  unfold specScore
  split
  · apply div_nonneg
    · apply List.sum_nonneg
      intro x hx
      simp only [List.mem_map] at hx
      obtain ⟨t, ht, rfl⟩ := hx
      obtain ⟨h1, h2⟩ := presentTerms_nonneg hp hq t ht
      exact mul_nonneg h1 h2
    · apply List.sum_nonneg
      intro x hx
      simp only [List.mem_map] at hx
      obtain ⟨t, ht, rfl⟩ := hx
      exact (presentTerms_nonneg hp hq t ht).2
  · exact le_refl 0

/-! ### The strict-maximum fold of `findBestLanguageForRequirements` -/

lemma foldl_best_le (req : Requirements) :
    ∀ (ps : List (String × LanguageProfile)) (acc : Option String × ℚ),
      (∀ e ∈ ps, e.2.matches req ≤ acc.2) →
      ps.foldl (findBestStep req) acc = acc := by
  intro ps
  induction ps with
  | nil => intro acc _; rfl
  | cons e t ih =>
    intro acc h
    have he : e.2.matches req ≤ acc.2 := h e (by simp)
    have hstep : findBestStep req acc e = acc := by
      unfold findBestStep
      rw [if_neg (not_lt.mpr he)]
    rw [List.foldl_cons, hstep]
    exact ih acc (fun x hx => h x (List.mem_cons_of_mem _ hx))

/-- The loop of `findBestLanguageForRequirements`, started at `(l0, s0)`,
ends at the first strict maximum whenever some score exceeds `s0`. -/
lemma foldl_best_argmax (req : Requirements) :
    ∀ (ps : List (String × LanguageProfile)) (l0 : Option String) (s0 : ℚ),
      (∃ e ∈ ps, s0 < e.2.matches req) →
      ∃ i : Fin ps.length,
        ps.foldl (findBestStep req) (l0, s0) =
          (some (ps.get i).1, (ps.get i).2.matches req) ∧
        s0 < (ps.get i).2.matches req ∧
        (∀ j : Fin ps.length, (ps.get j).2.matches req ≤ (ps.get i).2.matches req) ∧
        (∀ j : Fin ps.length, (j : ℕ) < (i : ℕ) →
          (ps.get j).2.matches req < (ps.get i).2.matches req) := by
  intro ps
  induction ps with
  | nil => intro l0 s0 h; simp at h
  | cons e t ih =>
    intro l0 s0 h
    by_cases hs : s0 < e.2.matches req
    · have hstep : findBestStep req (l0, s0) e = (some e.1, e.2.matches req) := by
        unfold findBestStep
        rw [if_pos hs]
      by_cases ht : ∃ x ∈ t, e.2.matches req < x.2.matches req
      · obtain ⟨i, hfold, hgt, hmax, hfirst⟩ := ih (some e.1) (e.2.matches req) ht
        refine ⟨i.succ, ?_, lt_trans hs hgt, ?_, ?_⟩
        · rw [List.foldl_cons, hstep, hfold]
          rfl
        · intro j
          refine Fin.cases ?_ ?_ j
          · simpa using le_of_lt hgt
          · intro j'
            simpa using hmax j'
        · intro j
          refine Fin.cases ?_ ?_ j
          · intro _
            simpa using hgt
          · intro j' hj'
            have : (j' : ℕ) < (i : ℕ) := by simpa using hj'
            simpa using hfirst j' this
      · push_neg at ht
        have hfold : t.foldl (findBestStep req) (some e.1, e.2.matches req) =
            (some e.1, e.2.matches req) :=
          foldl_best_le req t _ (fun x hx => ht x hx)
        refine ⟨⟨0, by simp⟩, ?_, by simpa using hs, ?_, ?_⟩
        · rw [List.foldl_cons, hstep, hfold]
          rfl
        · intro j
          refine Fin.cases ?_ ?_ j
          · simp
          · intro j'
            simpa using ht (t.get j') (t.get_mem _ _)
        · intro j hj
          simp at hj
    · have hstep : findBestStep req (l0, s0) e = (l0, s0) := by
        unfold findBestStep
        rw [if_neg hs]
      obtain ⟨x, hx, hxs⟩ := h
      rcases List.mem_cons.mp hx with rfl | hxt
      · exact absurd hxs hs
      · obtain ⟨i, hfold, hgt, hmax, hfirst⟩ := ih l0 s0 ⟨x, hxt, hxs⟩
        refine ⟨i.succ, ?_, hgt, ?_, ?_⟩
        · rw [List.foldl_cons, hstep, hfold]
          rfl
        · intro j
          refine Fin.cases ?_ ?_ j
          · simpa using le_of_lt (lt_of_le_of_lt (not_lt.mp hs) hgt)
          · intro j'
            simpa using hmax j'
        · intro j
          refine Fin.cases ?_ ?_ j
          · intro _
            simpa using lt_of_le_of_lt (not_lt.mp hs) hgt
          · intro j' hj'
            have : (j' : ℕ) < (i : ℕ) := by simpa using hj'
            simpa using hfirst j' this

/-! ### Claim theorems for the scorer -/

/-- C1 (counterexample): on the query `{useCase:"web", useCaseWeight:0}`
against a profile carrying `web` at score 10, the code computes
`10 * (0 || 1) / (0 || 1) = 10`, while the claim (use-case weight
`useCaseWeight` whenever given) makes the total weight 0 and hence the score
0: the claim as stated is false at this input. -/
theorem C1_counterexample :
    p0.matches req0 = 10 ∧ claimedScore p0 req0 = 0 ∧
    p0.matches req0 ≠ claimedScore p0 req0 := by
  have h1 : p0.matches req0 = 10 := by
    simp [LanguageProfile.matches, dimStep, ucStep, ucWeight, p0, req0]
  have h2 : claimedScore p0 req0 = 0 := by
    simp [claimedScore, claimedUcTerm, optTerm, sumScore, sumWeight, p0, req0]
  refine ⟨h1, h2, ?_⟩
  rw [h1, h2]
  norm_num

/-- C1 (amended): `score(profile, query)` is the weighted average over
exactly the terms present in the query — each present characteristic
dimension contributing `value * weight`, and the use-case term applying when
the query names a nonempty `useCase` found (first match) in the profile, with
weight `useCaseWeight` when given and nonzero, else 1 — divided by the sum of
those same weights, the result being 0 whenever that total weight is not
strictly positive. -/
theorem C1_score_is_weighted_average (p : LanguageProfile) (req : Requirements) :
    p.matches req = specScore p req :=
  matches_eq_specScore p req

/-- C2: `findBest` visits the registry in registration order and returns the
first profile attaining the maximal score — a later profile displaces the
running best only on a strictly greater score — for every query and registry
within the spec's documented domain (non-negative query weights and
non-negative profile ratings). -/
theorem C2_findBest_returns_first_argmax (registry : List (String × LanguageProfile))
    (req : Requirements) (hq : req.nonnegQ = true)
    (hp : ∀ e ∈ registry, e.2.nonnegP = true) (hne : registry ≠ []) :
    ∃ i : Fin registry.length,
      (findBestLanguageForRequirements registry req).language =
        some (registry.get i).1 ∧
      (findBestLanguageForRequirements registry req).score =
        (registry.get i).2.matches req ∧
      (∀ j : Fin registry.length,
        (registry.get j).2.matches req ≤ (registry.get i).2.matches req) ∧
      (∀ j : Fin registry.length, (j : ℕ) < (i : ℕ) →
        (registry.get j).2.matches req < (registry.get i).2.matches req) := by
  obtain ⟨e, t, rfl⟩ := List.exists_cons_of_ne_nil hne
  have hex : ∃ x ∈ e :: t, (-1 : ℚ) < x.2.matches req := by
    refine ⟨e, List.mem_cons_self e t, ?_⟩
    have := matches_nonneg (hp e (List.mem_cons_self e t)) hq
    linarith
  obtain ⟨i, hf, _, hmax, hfirst⟩ := foldl_best_argmax req (e :: t) none (-1) hex
  refine ⟨i, ?_, ?_, hmax, hfirst⟩
  · unfold findBestLanguageForRequirements
    rw [hf]
  · unfold findBestLanguageForRequirements
    rw [hf]

/-- Witness for C2: instantiated at the builtin registry with the ecosystem
query (javascript and python tie; javascript, registered first, is
returned). -/
theorem C2_witness :
    ∃ i : Fin profiles.length,
      (findBestLanguageForRequirements profiles qEco).language =
        some (profiles.get i).1 ∧
      (findBestLanguageForRequirements profiles qEco).score =
        (profiles.get i).2.matches qEco ∧
      (∀ j : Fin profiles.length,
        (profiles.get j).2.matches qEco ≤ (profiles.get i).2.matches qEco) ∧
      (∀ j : Fin profiles.length, (j : ℕ) < (i : ℕ) →
        (profiles.get j).2.matches qEco < (profiles.get i).2.matches qEco) :=
  C2_findBest_returns_first_argmax profiles qEco
    (by norm_num [Requirements.nonnegQ, dimOk, qEco])
    (by
      intro e he
      fin_cases he <;>
        norm_num [LanguageProfile.nonnegP, javascriptProfile, pythonProfile, goProfile,
          rustProfile, LanguageProfile.make, LanguageProfile.addUseCase,
          LanguageProfile.addLibrary])
    (by simp [profiles])

/-- C8: within the spec's documented domain (non-negative weights and
ratings, nonempty profile names), `findBest` yields the
`{language: null, score: -1, profile: null}` sentinel exactly on the empty
registry — the sentinel `-1` is negative and below every attainable score —
and on every non-empty registry it returns a non-null language and a non-null
profile. -/
theorem C8_null_exactly_on_empty_registry (registry : List (String × LanguageProfile))
    (req : Requirements) (hq : req.nonnegQ = true)
    (hp : ∀ e ∈ registry, e.2.nonnegP = true) (hn : ∀ e ∈ registry, e.1 ≠ "") :
    (registry = [] →
      findBestLanguageForRequirements registry req =
        { language := none, score := -1, profile := none }) ∧
    ((-1 : ℚ) < 0) ∧
    (∀ e ∈ registry, (-1 : ℚ) < e.2.matches req) ∧
    (registry ≠ [] →
      (∃ n, (findBestLanguageForRequirements registry req).language = some n) ∧
      (∃ pr, (findBestLanguageForRequirements registry req).profile = some pr)) := by
  refine ⟨?_, by norm_num, ?_, ?_⟩
  · rintro rfl
    rfl
  · intro e he
    have := matches_nonneg (hp e he) hq
    linarith
  · intro hne
    obtain ⟨e, t, rfl⟩ := List.exists_cons_of_ne_nil hne
    have hex : ∃ x ∈ e :: t, (-1 : ℚ) < x.2.matches req := by
      refine ⟨e, List.mem_cons_self e t, ?_⟩
      have := matches_nonneg (hp e (List.mem_cons_self e t)) hq
      linarith
    obtain ⟨i, hf, _, _, _⟩ := foldl_best_argmax req (e :: t) none (-1) hex
    constructor
    · refine ⟨((e :: t).get i).1, ?_⟩
      unfold findBestLanguageForRequirements
      rw [hf]
    · have hname : ((e :: t).get i).1 ≠ "" := hn _ (List.get_mem _ _ _)
      have hsome : ((e :: t).find? (fun x => x.1 = ((e :: t).get i).1)).isSome := by
        rw [List.find?_isSome]
        exact ⟨(e :: t).get i, List.get_mem _ _ _, by simp⟩
      obtain ⟨y, hy⟩ := Option.isSome_iff_exists.mp hsome
      refine ⟨y.2, ?_⟩
      unfold findBestLanguageForRequirements
      rw [hf]
      show (if ((e :: t).get i).1 = "" then none
            else (List.find? (fun x => x.1 = ((e :: t).get i).1) (e :: t)).map
              (fun x => x.2)) = some y.2
      rw [if_neg hname, hy]
      rfl

/-- Witness for C8: instantiated at the builtin registry and the empty
query. -/
theorem C8_witness :
    (profiles = [] →
      findBestLanguageForRequirements profiles {} =
        { language := none, score := -1, profile := none }) ∧
    ((-1 : ℚ) < 0) ∧
    (∀ e ∈ profiles, (-1 : ℚ) < e.2.matches {}) ∧
    (profiles ≠ [] →
      (∃ n, (findBestLanguageForRequirements profiles {}).language = some n) ∧
      (∃ pr, (findBestLanguageForRequirements profiles {}).profile = some pr)) :=
  C8_null_exactly_on_empty_registry profiles {}
    (by norm_num [Requirements.nonnegQ, dimOk])
    (by
      intro e he
      fin_cases he <;>
        norm_num [LanguageProfile.nonnegP, javascriptProfile, pythonProfile, goProfile,
          rustProfile, LanguageProfile.make, LanguageProfile.addUseCase,
          LanguageProfile.addLibrary])
    (by
      intro e he
      fin_cases he <;> simp)

/-- C9: on the four builtin profiles and the query
`{performance:{weight:1}, concurrency:{weight:1}, useCase:"system"}`,
`findBest` returns language `"rust"` (rust scores 29/3, beating go's 26/3,
python's 5 and javascript's 6). -/
theorem C9_best_for_system_query_is_rust :
    (findBestLanguageForRequirements profiles q9).language = some "rust" := by
  have hjs : javascriptProfile.matches q9 = 6 := by
    simp [LanguageProfile.matches, dimStep, ucStep, ucWeight, q9, javascriptProfile,
      LanguageProfile.make, LanguageProfile.addUseCase, LanguageProfile.addLibrary]
    norm_num
  have hpy : pythonProfile.matches q9 = 5 := by
    simp [LanguageProfile.matches, dimStep, ucStep, ucWeight, q9, pythonProfile,
      LanguageProfile.make, LanguageProfile.addUseCase, LanguageProfile.addLibrary]
    norm_num
  have hgo : goProfile.matches q9 = 26 / 3 := by
    simp [LanguageProfile.matches, dimStep, ucStep, ucWeight, q9, goProfile,
      LanguageProfile.make, LanguageProfile.addUseCase, LanguageProfile.addLibrary]
    norm_num
  have hru : rustProfile.matches q9 = 29 / 3 := by
    simp [LanguageProfile.matches, dimStep, ucStep, ucWeight, q9, rustProfile,
      LanguageProfile.make, LanguageProfile.addUseCase, LanguageProfile.addLibrary]
    norm_num
  unfold findBestLanguageForRequirements profiles
  simp only [List.foldl_cons, List.foldl_nil, findBestStep, hjs, hpy, hgo, hru]
  norm_num

lemma nullFreeEntries_getEntry {kvs : List (String × JValue)} {k : String} {v : JValue}
    (h : nullFreeEntries kvs = true) (hget : getEntry kvs k = some v) :
    nullFree v = true := by
  induction kvs with
  | nil => simp [getEntry] at hget
  | cons e es ih =>
    have h' : nullFree e.2 = true ∧ nullFreeEntries es = true := by
      have : (nullFree e.2 && nullFreeEntries es) = true := h
      exact Bool.and_eq_true_iff.mp this
    unfold getEntry at hget
    rw [List.find?_cons] at hget
    split at hget
    · have : e.2 = v := by
        simpa using hget
      rw [← this]
      exact h'.1
    · exact ih h'.2 hget

lemma nullFreeList_get? {xs : List JValue} {i : ℕ} {v : JValue}
    (h : nullFreeList xs = true) (hget : xs.get? i = some v) :
    nullFree v = true := by
  induction xs generalizing i with
  | nil => simp at hget
  | cons x xs ih =>
    have h' : nullFree x = true ∧ nullFreeList xs = true := by
      have : (nullFree x && nullFreeList xs) = true := h
      exact Bool.and_eq_true_iff.mp this
    cases i with
    | zero =>
      simp only [List.get?_cons_zero, Option.some.injEq] at hget
      rw [← hget]
      exact h'.1
    | succ n => exact ih h'.2 hget

lemma nullFree_readTotal {doc : JValue} {k : String} {v : JValue}
    (h : nullFree doc = true) (hread : readTotal doc k = some v) :
    nullFree v = true := by
  cases doc with
  | obj kvs =>
    have h' : nullFreeEntries kvs = true := h
    exact nullFreeEntries_getEntry h' hread
  | arr xs =>
    have h' : nullFreeList xs = true := h
    simp only [readTotal] at hread
    split at hread
    · have : JValue.num (xs.length : ℚ) = v := by simpa using hread
      rw [← this]
      rfl
    · split at hread
      · split at hread
        · exact nullFreeList_get? h' (by simpa using hread)
        · exact absurd hread (by simp)
      · exact absurd hread (by simp)
  | str s =>
    simp only [readTotal] at hread
    split at hread
    · have : JValue.num (s.length : ℚ) = v := by simpa using hread
      rw [← this]
      rfl
    · split at hread
      · split at hread
        · rw [Option.map_eq_some'] at hread
          obtain ⟨c, _, rfl⟩ := hread
          rfl
        · exact absurd hread (by simp)
      · exact absurd hread (by simp)
  | null => exact absurd h (by simp [nullFree])
  | bool b => simp [readTotal] at hread
  | num q => simp [readTotal] at hread

/-- On a `null`-free document, `Config.get` never throws and computes exactly
the spec's key-by-key walk. -/
lemma getPath_eq_specWalk {doc : JValue} (keys : List String)
    (h : nullFree doc = true) :
    getPath doc keys = .ok (specWalk doc keys) := by
  induction keys generalizing doc with
  | nil => rfl
  | cons k rest ih =>
    have hnn : doc ≠ JValue.null := by
      intro hd
      rw [hd] at h
      simp [nullFree] at h
    have hread : readProp doc k = .ok (readTotal doc k) := by
      unfold readProp
      cases doc <;> first | (exact absurd rfl hnn) | rfl
    unfold getPath specWalk
    rw [hread]
    cases hr : readTotal doc k with
    | none => rfl
    | some v => exact ih (nullFree_readTotal h hr)

lemma find?_map_setKey_ne (k k' : String) (v : JValue) (hk : k' ≠ k) :
    ∀ es : List (String × JValue),
      (es.map (fun x => if x.1 = k then (k, v) else x)).find? (fun x => x.1 = k')
        = es.find? (fun x => x.1 = k') := by
  intro es
  induction es with
  | nil => rfl
  | cons f fs ihf =>
    rw [List.map_cons]
    by_cases hf : f.1 = k
    · rw [if_pos hf]
      rw [List.find?_cons_of_neg _ (by simp [Ne.symm hk]),
        List.find?_cons_of_neg _ (by simp [hf, Ne.symm hk])]
      exact ihf
    · rw [if_neg hf]
      by_cases hf' : f.1 = k'
      · rw [List.find?_cons_of_pos _ (by simp [hf']),
          List.find?_cons_of_pos _ (by simp [hf'])]
      · rw [List.find?_cons_of_neg _ (by simp [hf']),
          List.find?_cons_of_neg _ (by simp [hf'])]
        exact ihf

lemma find?_map_setKey_self (k : String) (v : JValue) :
    ∀ es : List (String × JValue), es.any (fun x => x.1 = k) = true →
      (es.map (fun x => if x.1 = k then (k, v) else x)).find? (fun x => x.1 = k)
        = some (k, v) := by
  intro es
  induction es with
  | nil => intro h; simp at h
  | cons f fs ihf =>
    intro h
    rw [List.map_cons]
    by_cases hf : f.1 = k
    · rw [if_pos hf]
      rw [List.find?_cons_of_pos _ (by simp)]
    · rw [if_neg hf]
      rw [List.find?_cons_of_neg _ (by simp [hf])]
      apply ihf
      rcases List.any_eq_true.mp h with ⟨x, hx, hxk⟩
      rcases List.mem_cons.mp hx with rfl | hxfs
      · exact absurd (by simpa using hxk) hf
      · exact List.any_eq_true.mpr ⟨x, hxfs, hxk⟩

lemma getEntry_setKey (kvs : List (String × JValue)) (k k' : String) (v : JValue) :
    getEntry (setKey kvs k v) k' = if k' = k then some v else getEntry kvs k' := by
  unfold setKey
  by_cases hany : kvs.any (fun x => x.1 = k) = true
  · rw [if_pos hany]
    by_cases hk : k' = k
    · subst hk
      rw [if_pos rfl]
      unfold getEntry
      rw [find?_map_setKey_self k' v kvs hany]
      rfl
    · rw [if_neg hk]
      unfold getEntry
      rw [find?_map_setKey_ne k k' v hk kvs]
  · rw [if_neg hany]
    have hnone : kvs.find? (fun x => x.1 = k) = none := by
      rw [List.find?_eq_none]
      intro x hx
      intro hxk
      exact hany (List.any_eq_true.mpr ⟨x, hx, hxk⟩)
    by_cases hk : k' = k
    · subst hk
      rw [if_pos rfl]
      unfold getEntry
      rw [List.find?_append, hnone, Option.none_or]
      rw [List.find?_cons_of_pos _ (by simp)]
      rfl
    · rw [if_neg hk]
      unfold getEntry
      rw [List.find?_append]
      rw [List.find?_cons_of_neg _ (by simp [Ne.symm hk]), List.find?_nil,
        Option.or_none]

lemma getEntry_setKey_self (kvs : List (String × JValue)) (k : String) (v : JValue) :
    getEntry (setKey kvs k v) k = some v := by
  rw [getEntry_setKey, if_pos rfl]

lemma getEntry_setKey_other (kvs : List (String × JValue)) {k k' : String} (v : JValue)
    (h : k' ≠ k) : getEntry (setKey kvs k v) k' = getEntry kvs k' := by
  rw [getEntry_setKey, if_neg h]

lemma getPath_obj_cons (kvs : List (String × JValue)) (k : String) (rest : List String) :
    getPath (.obj kvs) (k :: rest) =
      match getEntry kvs k with
      | none => .ok none
      | some v => getPath v rest := by
  simp only [getPath, readProp, readTotal]
  cases getEntry kvs k <;> rfl

lemma parseIndex?_length : parseIndex? "length" = none := rfl

lemma ne_length_of_parseIndex? {k : String} {i : ℕ} (h : parseIndex? k = some i) :
    k ≠ "length" := by
  intro hk
  rw [hk, parseIndex?_length] at h
  exact Option.noConfusion h

lemma getPath_arr_cons (xs : List JValue) (k : String) (rest : List String) :
    getPath (.arr xs) (k :: rest) =
      match readTotal (.arr xs) k with
      | none => .ok none
      | some w => getPath w rest := by
  simp only [getPath, readProp]
  cases readTotal (.arr xs) k <;> rfl

lemma readTotal_arr_index {k : String} {i : ℕ} (xs : List JValue)
    (hpi : parseIndex? k = some i) (htos : toString i = k) :
    readTotal (.arr xs) k = xs.get? i := by
  have hne : k ≠ "length" := ne_length_of_parseIndex? hpi
  simp only [readTotal]
  rw [if_neg hne, hpi]
  simp [htos]

lemma get?_set_self (xs : List JValue) (i : ℕ) (w : JValue) (h : i < xs.length) :
    (xs.set i w).get? i = some w := by
  rw [List.get?_eq_getElem?]
  exact List.getElem?_set_self h

lemma get?_concat_self (xs : List JValue) (w : JValue) :
    (xs ++ [w]).get? xs.length = some w := by
  rw [List.get?_eq_getElem?]
  exact List.getElem?_concat_length xs w

lemma setWalk_get_ok (v : JValue) :
    ∀ (keys : List String) (doc : JValue), okSetPath doc keys = true →
      ∃ doc', setWalk (some doc) keys v = .ok doc' ∧
        getPath doc' keys = .ok (some v) := by
  intro keys
  induction keys with
  | nil => intro doc h; simp [okSetPath] at h
  | cons k rest ih =>
    intro doc h
    cases rest with
    | nil =>
      cases doc with
      | obj kvs =>
        refine ⟨.obj (setKey kvs k v), rfl, ?_⟩
        rw [getPath_obj_cons, getEntry_setKey_self]
        rfl
      | arr xs =>
        rw [okSetPath] at h
        cases hpi : parseIndex? k with
        | none => simp [hpi] at h
        | some i =>
          simp only [hpi, Bool.and_eq_true, decide_eq_true_eq] at h
          obtain ⟨htos, hle⟩ := h
          have hne : k ≠ "length" := ne_length_of_parseIndex? hpi
          rcases lt_or_eq_of_le hle with hlt | heq
          · refine ⟨.arr (xs.set i v), ?_, ?_⟩
            · show assignProp (.arr xs) k v = _
              simp only [assignProp]
              rw [if_neg hne]
              simp only [hpi, htos, eq_self_iff_true, if_true]
              rw [if_pos hlt]
            · have hv : (xs.set i v).get? i = some v := get?_set_self xs i v hlt
              rw [getPath_arr_cons, readTotal_arr_index _ hpi htos, hv]
              rfl
          · refine ⟨.arr (xs ++ [v]), ?_, ?_⟩
            · show assignProp (.arr xs) k v = _
              simp only [assignProp]
              rw [if_neg hne]
              simp only [hpi, htos, eq_self_iff_true, if_true]
              rw [if_neg (by omega), if_pos heq]
            · have hv : (xs ++ [v]).get? i = some v := by
                rw [heq]
                exact get?_concat_self xs v
              rw [getPath_arr_cons, readTotal_arr_index _ hpi htos, hv]
              rfl
      | null => simp [okSetPath] at h
      | bool b => simp [okSetPath] at h
      | num q => simp [okSetPath] at h
      | str s => simp [okSetPath] at h
    | cons k' rest' =>
      cases doc with
      | obj kvs =>
        have h' := h
        rw [okSetPath] at h'
        cases hc : getEntry kvs k with
        | some c =>
          simp only [hc] at h'
          by_cases htr : truthy c = true
          · rw [if_pos htr] at h'
            obtain ⟨c', hset, hget⟩ := ih c h'
            refine ⟨.obj (setKey kvs k c'), ?_, ?_⟩
            · simp only [setWalk, hc, htr, if_true, hset]
            · rw [getPath_obj_cons, getEntry_setKey_self]
              exact hget
          · rw [if_neg htr] at h'
            obtain ⟨c', hset, hget⟩ := ih (.obj []) h'
            refine ⟨.obj (setKey kvs k c'), ?_, ?_⟩
            · have hf : truthy c = false := by simpa using htr
              simp only [setWalk, hc, hf, Bool.false_eq_true, if_false, hset]
            · rw [getPath_obj_cons, getEntry_setKey_self]
              exact hget
        | none =>
          simp only [hc] at h'
          obtain ⟨c', hset, hget⟩ := ih (.obj []) h'
          refine ⟨.obj (setKey kvs k c'), ?_, ?_⟩
          · simp only [setWalk, hc, hset]
          · rw [getPath_obj_cons, getEntry_setKey_self]
            exact hget
      | arr xs =>
        rw [okSetPath] at h
        cases hpi : parseIndex? k with
        | none => simp [hpi] at h
        | some i =>
          simp only [hpi] at h
          by_cases htos : toString i = k
          · rw [if_pos htos] at h
            have hne : k ≠ "length" := ne_length_of_parseIndex? hpi
            cases hg : xs.get? i with
            | some c =>
              simp only [hg] at h
              have hilt : i < xs.length := by
                by_contra hh
                push_neg at hh
                rw [List.get?_eq_none.mpr hh] at hg
                exact Option.noConfusion hg
              by_cases htr : truthy c = true
              · rw [if_pos htr] at h
                obtain ⟨c', hset, hget⟩ := ih c h
                refine ⟨.arr (xs.set i c'), ?_, ?_⟩
                · simp only [setWalk]
                  rw [if_neg hne]
                  simp only [hpi, htos, eq_self_iff_true, if_true, hg, htr, hset]
                · have hv : (xs.set i c').get? i = some c' := get?_set_self xs i c' hilt
                  rw [getPath_arr_cons, readTotal_arr_index _ hpi htos, hv]
                  exact hget
              · rw [if_neg htr] at h
                obtain ⟨c', hset, hget⟩ := ih (.obj []) h
                refine ⟨.arr (xs.set i c'), ?_, ?_⟩
                · have hf : truthy c = false := by simpa using htr
                  simp only [setWalk]
                  rw [if_neg hne]
                  simp only [hpi, htos, eq_self_iff_true, if_true, hg, hf,
                    Bool.false_eq_true, if_false, hset]
                · have hv : (xs.set i c').get? i = some c' := get?_set_self xs i c' hilt
                  rw [getPath_arr_cons, readTotal_arr_index _ hpi htos, hv]
                  exact hget
            | none =>
              simp only [hg] at h
              by_cases hlen : i = xs.length
              · rw [if_pos hlen] at h
                obtain ⟨c', hset, hget⟩ := ih (.obj []) h
                refine ⟨.arr (xs ++ [c']), ?_, ?_⟩
                · simp only [setWalk]
                  rw [if_neg hne]
                  simp only [hpi, htos, eq_self_iff_true, if_true, hg]
                  rw [if_pos hlen]
                  simp only [hset]
                · have hv : (xs ++ [c']).get? i = some c' := by
                    rw [hlen]
                    exact get?_concat_self xs c'
                  rw [getPath_arr_cons, readTotal_arr_index _ hpi htos, hv]
                  exact hget
              · rw [if_neg hlen] at h
                exact absurd h (by simp)
          · rw [if_neg htos] at h
            exact absurd h (by simp)
      | null => simp [okSetPath] at h
      | bool b => simp [okSetPath] at h
      | num q => simp [okSetPath] at h
      | str s => simp [okSetPath] at h

lemma deepMerge_obj_obj (tkvs skvs : List (String × JValue)) :
    deepMerge (.obj tkvs) (.obj skvs) = .obj (mergeList tkvs tkvs skvs) := by
  rw [deepMerge]

/-- Keys never touched by the source loop are left as they are in `out`. -/
lemma mergeList_frame (tkvs : List (String × JValue)) (k : String) :
    ∀ (skvs out : List (String × JValue)), (∀ e ∈ skvs, e.1 ≠ k) →
      getEntry (mergeList tkvs out skvs) k = getEntry out k := by
  intro skvs
  induction skvs with
  | nil => intro out _; rfl
  | cons e rest ih =>
    intro out hne
    obtain ⟨k0, sv⟩ := e
    have hk0 : k0 ≠ k := by simpa using hne (k0, sv) (by simp)
    have hkk0 : k ≠ k0 := Ne.symm hk0
    rw [mergeList]
    rw [ih _ (fun x hx => hne x (List.mem_cons_of_mem _ hx))]
    by_cases hobj : isObject sv = true
    · simp only [hobj, if_true]
      cases htv : getEntry tkvs k0 <;>
        simp [getEntry_setKey_other _ _ hkk0]
    · have hf : isObject sv = false := by simpa using hobj
      simp only [hf, Bool.false_eq_true, if_false]
      simp [getEntry_setKey_other _ _ hkk0]

/-- Pointwise characterisation of the `deepMerge` loop: starting from `out`,
a key carried by `source` is merged according to the source value's shape and
its presence in the original target, and every other key keeps its `out`
value. -/
lemma mergeList_getEntry (tkvs : List (String × JValue)) (k : String) :
    ∀ (skvs out : List (String × JValue)), (skvs.map Prod.fst).Nodup →
      getEntry (mergeList tkvs out skvs) k =
        (match getEntry skvs k with
         | some sv =>
           if isObject sv then
             match getEntry tkvs k with
             | none => some sv
             | some tv => some (deepMerge tv sv)
           else some sv
         | none => getEntry out k) := by
  intro skvs
  induction skvs with
  | nil => intro out _; rfl
  | cons e rest ih =>
    intro out hnd
    obtain ⟨k0, sv⟩ := e
    have hnd' : (rest.map Prod.fst).Nodup := (List.nodup_cons.mp hnd).2
    have hk0notin : k0 ∉ rest.map Prod.fst := (List.nodup_cons.mp hnd).1
    rw [mergeList]
    by_cases hk : k0 = k
    · subst hk
      have hfr : ∀ x ∈ rest, x.1 ≠ k0 := by
        intro x hx hx1
        exact hk0notin (by rw [← hx1]; exact List.mem_map_of_mem _ hx)
      rw [mergeList_frame tkvs k0 rest _ hfr]
      have hhead : getEntry ((k0, sv) :: rest) k0 = some sv := by
        unfold getEntry
        rw [List.find?_cons_of_pos _ (by simp)]
        rfl
      rw [hhead]
      by_cases hobj : isObject sv = true
      · simp only [hobj, if_true]
        cases htv : getEntry tkvs k0 <;> simp [getEntry_setKey_self]
      · have hf : isObject sv = false := by simpa using hobj
        simp only [hf, Bool.false_eq_true, if_false]
        simp [getEntry_setKey_self]
    · have hkk0 : k ≠ k0 := Ne.symm hk
      have hhead : getEntry ((k0, sv) :: rest) k = getEntry rest k := by
        unfold getEntry
        rw [List.find?_cons_of_neg _ (by simp [hk])]
      rw [hhead, ih _ hnd']
      cases hr : getEntry rest k with
      | some sv' => rfl
      | none =>
        by_cases hobj : isObject sv = true
        · simp only [hobj, if_true]
          cases htv : getEntry tkvs k0 <;>
            simp [getEntry_setKey_other _ _ hkk0]
        · have hf : isObject sv = false := by simpa using hobj
          simp only [hf, Bool.false_eq_true, if_false]
          simp [getEntry_setKey_other _ _ hkk0]

/-! ### Claim theorems for the configuration store -/

/-- C3: `deepMerge` (a pure function of its two arguments in this embedding,
mirroring the source's construction of a fresh `output` object) merges two
nested documents pointwise: a key only in the base keeps its base value; a
key whose override value is a plain mapping and which also exists in the base
is merged recursively; every other override value — arrays included —
replaces the base value wholesale.  In particular
`deepMerge {a:{x:1,y:2}} {a:{y:3}} = {a:{x:1,y:3}}`. -/
theorem C3_deepMerge_pointwise :
    (∀ (tkvs skvs : List (String × JValue)), (skvs.map Prod.fst).Nodup →
      ∀ k : String,
        getEntry (mergeList tkvs tkvs skvs) k =
          (match getEntry skvs k with
           | some sv =>
             if isObject sv then
               match getEntry tkvs k with
               | none => some sv
               | some tv => some (deepMerge tv sv)
             else some sv
           | none => getEntry tkvs k) ∧
        deepMerge (.obj tkvs) (.obj skvs) = .obj (mergeList tkvs tkvs skvs)) ∧
    deepMerge (.obj [("a", .obj [("x", .num 1), ("y", .num 2)])])
        (.obj [("a", .obj [("y", .num 3)])]) =
      .obj [("a", .obj [("x", .num 1), ("y", .num 3)])] := by
  constructor
  · intro tkvs skvs hnd k
    exact ⟨mergeList_getEntry tkvs k skvs tkvs hnd, deepMerge_obj_obj tkvs skvs⟩
  · rfl

/-- Witness for C3: the pointwise law instantiated at the spec's concrete
example, key `"a"`. -/
theorem C3_witness :
    getEntry (mergeList [("a", .obj [("x", .num 1), ("y", .num 2)])]
        [("a", .obj [("x", .num 1), ("y", .num 2)])] [("a", .obj [("y", .num 3)])]) "a" =
      some (deepMerge (.obj [("x", .num 1), ("y", .num 2)]) (.obj [("y", .num 3)])) := by
  rw [(C3_deepMerge_pointwise.1
    [("a", .obj [("x", .num 1), ("y", .num 2)])] [("a", .obj [("y", .num 3)])]
    (by simp) "a").1]
  rfl

/-- C4: a successful `loadFromFile` of `{llm:{model:"custom"}}` over the
defaults merges at the object level: `get("llm.model")` becomes `"custom"`
while `get("llm.provider")` stays `"openai"`, and every top-level key absent
from the loaded document keeps its prior in-memory value. -/
theorem C4_loadFromFile_merges_at_object_level (apiKey : JValue) (contents : String)
    (parseJson parseYaml : String → Except Unit JValue)
    (hp : parseJson contents = .ok loadedC4) :
    ∃ cfg' : JValue,
      loadFromFile (defaultConfig apiKey) (.ok contents) ".json" parseJson parseYaml =
        (true, cfg') ∧
      getPath cfg' ["llm", "model"] = .ok (some (.str "custom")) ∧
      getPath cfg' ["llm", "provider"] = .ok (some (.str "openai")) ∧
      ∃ out, cfg' = .obj out ∧
        ∀ k : String, getEntry [("llm", .obj [("model", .str "custom")])] k = none →
          getEntry out k = getEntry (defaultEntries apiKey) k := by
  refine ⟨deepMerge (defaultConfig apiKey) loadedC4, ?_, ?_, ?_, ?_⟩
  · simp only [loadFromFile, if_true]
    rw [hp]
  · rfl
  · rfl
  · refine ⟨mergeList (defaultEntries apiKey) (defaultEntries apiKey)
      [("llm", .obj [("model", .str "custom")])], rfl, ?_⟩
    intro k hk
    rw [mergeList_getEntry _ _ _ _ (by simp), hk]

/-- Witness for C4: instantiated with a `null` api key, empty file contents
and a json parser returning the override document. -/
theorem C4_witness :
    ∃ cfg' : JValue,
      loadFromFile (defaultConfig .null) (.ok "") ".json"
          (fun _ => .ok loadedC4) (fun _ => .error ()) = (true, cfg') ∧
      getPath cfg' ["llm", "model"] = .ok (some (.str "custom")) ∧
      getPath cfg' ["llm", "provider"] = .ok (some (.str "openai")) ∧
      ∃ out, cfg' = .obj out ∧
        ∀ k : String, getEntry [("llm", .obj [("model", .str "custom")])] k = none →
          getEntry out k = getEntry (defaultEntries .null) k :=
  C4_loadFromFile_merges_at_object_level .null "" (fun _ => .ok loadedC4)
    (fun _ => .error ()) rfl

/-- C5 (counterexample): on the document `{a: null}` the walk of
`Config.get` along `"a.b"` reads a property of `null` and throws a
`TypeError` — the claim that `get` never throws for every document state is
false at this input. -/
theorem C5_counterexample :
    getPath (.obj [("a", JValue.null)]) ["a", "b"] = .error () := rfl

/-- C5 (amended): `get` splits the path and walks the document key by key,
returning `undefined` as soon as a key is missing, and never throws provided
the document holds no `null` values: on every `null`-free document it
computes exactly the total key-by-key walk. -/
theorem C5_get_walks_without_throwing (doc : JValue) (keys : List String)
    (h : nullFree doc = true) :
    getPath doc keys = .ok (specWalk doc keys) :=
  getPath_eq_specWalk keys h

/-- Witness for C5: the default document (with a string api key) is
`null`-free and `get` on the missing path `nonexistent.deep` returns
`undefined` without throwing. -/
theorem C5_witness :
    getPath (defaultConfig (.str "k")) ["nonexistent", "deep"] =
      .ok (specWalk (defaultConfig (.str "k")) ["nonexistent", "deep"]) :=
  C5_get_walks_without_throwing (defaultConfig (.str "k")) ["nonexistent", "deep"] rfl

/-- C6 (counterexample): with the document `{a: true}`, `set("a.b", "v")`
does not replace the truthy non-mapping intermediate `true` by a fresh
mapping — the code only replaces falsy values — and the assignment onto the
boolean primitive is silently lost, so the document is unchanged and the
subsequent `get("a.b")` returns `undefined`, not the value just set: the
claim is false at this input. -/
theorem C6_counterexample :
    setWalk (some (.obj [("a", .bool true)])) ["a", "b"] (.str "v") =
      .ok (.obj [("a", .bool true)]) ∧
    getPath (.obj [("a", .bool true)]) ["a", "b"] = .ok none ∧
    (Except.ok none : Except Unit (Option JValue)) ≠ .ok (some (.str "v")) := by
  refine ⟨rfl, rfl, ?_⟩
  intro h
  simp at h

/-- C6 (amended): `set` creates a fresh empty mapping at an intermediate key
only when the key is absent or holds a falsy value; a truthy intermediate is
descended into without replacement.  On every set path whose traversed
intermediate values are absent, falsy (replaced by a fresh `{}`), plain
mappings, or arrays reached at a canonical index at most their length, and
whose final container is likewise an object or such an array, `set` assigns
the value at the final key and a subsequent `get` of the same path returns
the value just set. -/
theorem C6_set_then_get (doc : JValue) (keys : List String) (v : JValue)
    (h : okSetPath doc keys = true) :
    ∃ doc', setWalk (some doc) keys v = .ok doc' ∧
      getPath doc' keys = .ok (some v) :=
  setWalk_get_ok v keys doc h

/-- Witness for C6: `set("a.0", "x")` on `{a: [1, 2]}` stores the value
through the array intermediate, and `set("newProperty.nested.value",
"test")` on an empty document creates both intermediate mappings; in both
cases the subsequent `get` returns the value set. -/
theorem C6_witness :
    (∃ doc', setWalk (some (.obj [("a", .arr [.num 1, .num 2])])) ["a", "0"]
        (.str "x") = .ok doc' ∧
      getPath doc' ["a", "0"] = .ok (some (.str "x"))) ∧
    (∃ doc', setWalk (some (.obj [])) ["newProperty", "nested", "value"]
        (.str "test") = .ok doc' ∧
      getPath doc' ["newProperty", "nested", "value"] = .ok (some (.str "test"))) :=
  ⟨C6_set_then_get (.obj [("a", .arr [.num 1, .num 2])]) ["a", "0"] (.str "x") rfl,
   C6_set_then_get (.obj []) ["newProperty", "nested", "value"] (.str "test") rfl⟩

/-- C7: `loadFromFile` fails only by returning `false` (every throw of the
read or parse steps is caught), and on every failure path — read error,
parse error, or unsupported suffix — the in-memory document is returned
unchanged; the document changes only on a successful parse, to the deep
merge of the current document with the loaded one. -/
theorem C7_loadFromFile_failure_is_atomic (config : JValue) (read : Except Unit String)
    (ext : String) (parseJson parseYaml : String → Except Unit JValue) :
    ((loadFromFile config read ext parseJson parseYaml).1 = false →
      (loadFromFile config read ext parseJson parseYaml).2 = config) ∧
    ((loadFromFile config read ext parseJson parseYaml).1 = true →
      ∃ contents loaded, read = .ok contents ∧
        ((ext = ".json" ∧ parseJson contents = .ok loaded) ∨
          ((ext = ".yml" ∨ ext = ".yaml") ∧ parseYaml contents = .ok loaded)) ∧
        (loadFromFile config read ext parseJson parseYaml).2 =
          deepMerge config loaded) := by
  cases read with
  | error e => exact ⟨fun _ => rfl, fun h => by simp [loadFromFile] at h⟩
  | ok contents =>
    simp only [loadFromFile]
    by_cases hjson : ext = ".json"
    · rw [if_pos hjson]
      cases hp : parseJson contents with
      | error e2 => exact ⟨fun _ => rfl, fun h => by simp at h⟩
      | ok loaded =>
        exact ⟨fun h => by simp at h,
          fun _ => ⟨contents, loaded, rfl, Or.inl ⟨hjson, hp⟩, rfl⟩⟩
    · rw [if_neg hjson]
      by_cases hyaml : ext = ".yml" ∨ ext = ".yaml"
      · rw [if_pos hyaml]
        cases hp : parseYaml contents with
        | error e2 => exact ⟨fun _ => rfl, fun h => by simp at h⟩
        | ok loaded =>
          exact ⟨fun h => by simp at h,
            fun _ => ⟨contents, loaded, rfl, Or.inr ⟨hyaml, hp⟩, rfl⟩⟩
      · rw [if_neg hyaml]
        exact ⟨fun _ => rfl, fun h => by simp at h⟩

/-- Witness for C7: an unsupported suffix (`.txt`) leaves the default
document unchanged. -/
theorem C7_witness :
    (loadFromFile (defaultConfig .null) (.ok "x") ".txt"
        (fun _ => .error ()) (fun _ => .error ())).2 = defaultConfig .null :=
  (C7_loadFromFile_failure_is_atomic (defaultConfig .null) (.ok "x") ".txt"
    (fun _ => .error ()) (fun _ => .error ())).1 rfl

/-- C10 (counterexample): when the base maps `a` to the string `"hi"` and
the override maps `a` to a plain mapping, the recursive call spreads the
string — whose indexed characters are own enumerable properties — so the
result at `a` is `{0:"h", 1:"i"}`, not the empty mapping the claim
predicts. -/
theorem C10_counterexample :
    deepMerge (.obj [("a", .str "hi")]) (.obj [("a", .obj [("x", .num 1)])]) =
      .obj [("a", .obj [("0", .str "h"), ("1", .str "i")])] ∧
    getEntry [("a", .obj [("0", .str "h"), ("1", .str "i")])] "a" ≠
      some (.obj []) := by
  refine ⟨rfl, ?_⟩
  intro h
  simp [getEntry] at h

/-- C10 (amended): when the override maps a key to a plain mapping while the
base maps it to a non-mapping scalar, the recursive `deepMerge` call spreads
the scalar into the output object and skips the merge loop: the result at
that key is the object spread of the scalar — the empty mapping for numbers,
booleans and `null`, the character-index mapping for strings — and carries
none of the override mapping's content. -/
theorem C10_scalar_base_spreads (tkvs skvs : List (String × JValue)) (k : String)
    (hnd : (skvs.map Prod.fst).Nodup) (sv tv : JValue)
    (hs : getEntry skvs k = some sv) (hsobj : isObject sv = true)
    (ht : getEntry tkvs k = some tv) (htobj : isObject tv = false)
    (htarr : ∀ xs, tv ≠ .arr xs) :
    getEntry (mergeList tkvs tkvs skvs) k = some (.obj (spreadEntries tv)) ∧
    ((∀ s, tv ≠ .str s) → spreadEntries tv = []) := by
  constructor
  · rw [mergeList_getEntry _ _ _ _ hnd, hs]
    simp only [hsobj, if_true, ht]
    have : deepMerge tv sv = .obj (spreadEntries tv) := by
      cases sv with
      | obj okvs =>
        cases tv with
        | obj tkvs2 => simp [isObject] at htobj
        | null => rfl
        | bool b => rfl
        | num q => rfl
        | str s => rfl
        | arr xs => rfl
      | null => simp [isObject] at hsobj
      | bool b => simp [isObject] at hsobj
      | num q => simp [isObject] at hsobj
      | str s => simp [isObject] at hsobj
      | arr xs => simp [isObject] at hsobj
    rw [this]
  · intro hstr
    cases tv with
    | obj tkvs2 => simp [isObject] at htobj
    | null => rfl
    | bool b => rfl
    | num q => rfl
    | str s => exact absurd rfl (hstr s)
    | arr xs => exact absurd rfl (htarr xs)

/-- Witness for C10: base `{a: 5}`, override `{a:{x:1}}` — the merged value
at `a` is the empty mapping. -/
theorem C10_witness :
    getEntry (mergeList [("a", .num 5)] [("a", .num 5)]
        [("a", .obj [("x", .num 1)])]) "a" = some (.obj (spreadEntries (.num 5))) ∧
    ((∀ s, (JValue.num 5) ≠ .str s) → spreadEntries (.num 5) = []) :=
  C10_scalar_base_spreads [("a", .num 5)] [("a", .obj [("x", .num 1)])] "a"
    (by simp) (.obj [("x", .num 1)]) (.num 5) rfl rfl rfl rfl (fun xs h => by simp at h)

end PolyFunc
